import Mathlib

/-
Verification of the lol-competition-tracker core: a shallow embedding of the
rate-limited request scheduler, the transport error mapping, the lookup
orchestrator, the synthetic (mock) data provider and the client selector,
together with proofs of the specified properties.

Conventions of the embedding:
- Wall-clock instants and durations are Nat milliseconds.  The JavaScript
  event loop is serial, so the queue-drain loop is modelled as a fold whose
  state carries the clock explicitly; `await sleep(ms)` advances the clock by
  exactly `ms`, and the duration of each HTTP request is an input of the
  simulation (`execMs`).
- JavaScript `Error` objects are represented by their message string; code
  that can throw returns `Except String α`.
- `Date.now()` reads the current clock; monotonicity is built in because the
  clock only ever advances.
-/

namespace LolTracker

/-! ## ApiConfig (source: rate limit table) -/

structure RateLimit where
  perSecond : Nat
  perMinute : Nat
deriving Repr, DecidableEq

/-- ApiConfig.rateLimits.personal from the source: 20 requests per second,
100 per minute. -/
def personalRateLimit : RateLimit := { perSecond := 20, perMinute := 100 }

/-! ## Rate-limited scheduler (source: RiotApiClient.processQueue)

The scheduler state mirrors the fields of `RiotApiClient` that the queue
drain loop reads and writes, plus the explicit clock.  The constructor sets
`lastRequestTime = 0`, both counters to `0` and
`minuteResetTime = Date.now() + 60000`. -/

structure SchedState where
  clock : Nat
  lastRequestTime : Nat
  requestsThisSecond : Nat
  requestsThisMinute : Nat
  minuteResetTime : Nat
deriving Repr, DecidableEq

/-- State of a `RiotApiClient` freshly constructed at wall-clock time `t0`. -/
def initState (t0 : Nat) : SchedState :=
  { clock := t0
    lastRequestTime := 0
    requestsThisSecond := 0
    requestsThisMinute := 0
    minuteResetTime := t0 + 60000 }

/-- One entry of the request queue as the simulation sees it: an identifier
(standing for the url/options/resolve/reject bundle), the wall-clock duration
of its `executeRequest` call, and whether that call succeeds. -/
structure QueuedRequest where
  id : Nat
  execMs : Nat
  ok : Bool
deriving Repr, DecidableEq

/-- The observable outcome of servicing one queued request: which request was
dispatched, the clock instant at which `executeRequest` was invoked, and
whether the caller was resolved (true) or rejected (false). -/
structure DispatchRecord where
  id : Nat
  time : Nat
  succeeded : Bool
deriving Repr, DecidableEq

/-- One iteration of the `while` loop in `RiotApiClient.processQueue`,
transcribed branch by branch.  `now` is the single `Date.now()` read at the
top of the iteration and is deliberately not refreshed after the per-second
sleep, exactly as in the source (the per-minute sleep uses the stale `now`).
Counters and `lastRequestTime` are updated only on success, matching the
`try` block; the trailing 50 ms inter-request sleep always runs. -/
def processStep (s : SchedState) (r : QueuedRequest) : SchedState × DispatchRecord :=
  let now := s.clock
  -- if (now > this.minuteResetTime) reset the minute counter and boundary
  let s1 :=
    if s.minuteResetTime < now then
      { s with requestsThisMinute := 0, minuteResetTime := now + 60000 }
    else s
  -- if (now - this.lastRequestTime < 1000) check the per-second counter,
  -- sleeping out the rest of the second when it is at the limit
  let s2 :=
    if now - s1.lastRequestTime < 1000 then
      if personalRateLimit.perSecond ≤ s1.requestsThisSecond then
        { s1 with
            clock := s1.clock + (1000 - (now - s1.lastRequestTime))
            requestsThisSecond := 0 }
      else s1
    else { s1 with requestsThisSecond := 0 }
  -- if (this.requestsThisMinute >= limit) sleep until the minute boundary
  -- (computed from the stale now), then reset counter and boundary
  let s3 :=
    if personalRateLimit.perMinute ≤ s2.requestsThisMinute then
      { s2 with
          clock := s2.clock + (s2.minuteResetTime - now)
          requestsThisMinute := 0
          minuteResetTime := s2.clock + (s2.minuteResetTime - now) + 60000 }
    else s2
  -- shift the head request and dispatch it
  let t := s3.clock
  let s4 :=
    if r.ok then
      { s3 with
          clock := s3.clock + r.execMs
          requestsThisSecond := s3.requestsThisSecond + 1
          requestsThisMinute := s3.requestsThisMinute + 1
          lastRequestTime := s3.clock + r.execMs }
    else { s3 with clock := s3.clock + r.execMs }
  ({ s4 with clock := s4.clock + 50 }, { id := r.id, time := t, succeeded := r.ok })

/-- The full drain loop of `processQueue`: service the queued requests in
FIFO order, threading the scheduler state, and record every dispatch. -/
def processQueue (s : SchedState) : List QueuedRequest → SchedState × List DispatchRecord
  | [] => (s, [])
  | r :: rs =>
    let sd := processStep s r
    let rest := processQueue sd.1 rs
    (rest.1, sd.2 :: rest.2)

/-- Dispatch instants, in dispatch order, of a drain run. -/
def dispatchTimes (s : SchedState) (rs : List QueuedRequest) : List Nat :=
  (processQueue s rs).2.map (fun d => d.time)

/-- Number of dispatches falling in the half-open window [a, a + w). -/
def windowCount (a w : Nat) (ts : List Nat) : Nat :=
  ts.countP (fun t => decide (a ≤ t ∧ t < a + w))

/-! ## PlayerUtils (source: lol_mjnon_utils.js)

`parseRiotId` is `riotId.split('#')` followed by array destructuring: the
first segment always exists, the second is `undefined` (here `none`) when the
string has no separator, and any third segment is silently dropped.
`validateRiotId` tests the regular expression `^[^#]+#[^#]+$`, which matches
exactly the strings that split into two nonempty separator-free segments. -/

/-- JavaScript `String.prototype.split` with a single-character separator,
on the character list of the string: empty segments are kept and the empty
string splits to one empty segment. -/
def splitOnChar (sep : Char) : List Char → List (List Char)
  | [] => [[]]
  | c :: cs =>
    let rest := splitOnChar sep cs
    if c = sep then [] :: rest
    else
      match rest with
      | [] => [[c]]
      | g :: gs => (c :: g) :: gs

/-- Result of `PlayerUtils.parseRiotId`: `tagLine` is `none` when the
destructured second array element is `undefined`. -/
structure ParsedRiotId where
  gameName : String
  tagLine : Option String
deriving Repr, DecidableEq

/-- PlayerUtils.parseRiotId from the source: split on the separator and
destructure the first two segments.  It never throws. -/
def parseRiotId (riotId : String) : ParsedRiotId :=
  let parts := splitOnChar '#' riotId.data
  { gameName := String.mk (parts.headD [])
    tagLine := (parts.get? 1).map String.mk }

/-- PlayerUtils.validateRiotId from the source: the test of the regular
expression `^[^#]+#[^#]+$`, embedded as the equivalent condition on the
split: exactly two segments, both nonempty (segments produced by the split
never contain the separator). -/
def validateRiotId (riotId : String) : Bool :=
  match splitOnChar '#' riotId.data with
  | [a, b] => !a.isEmpty && !b.isEmpty
  | _ => false

/-! ## Transport and error mapping (source: RiotApiClient.executeRequest /
handleApiError) -/

/-- Truthiness of the stored credential, as in `!!this.apiKey`: both the JS
`null` (never configured) and the empty string are falsy. -/
def hasApiKey (apiKey : Option String) : Bool :=
  match apiKey with
  | none => false
  | some s => !s.isEmpty

/-- A non-2xx response as `handleApiError` sees it: the HTTP status and the
`message` field of the parsed JSON body — `none` when the body failed to
parse or had no message (a present-but-empty message is also falsy in
`errorData.message || message`). -/
structure ErrorResponse where
  status : Nat
  bodyMessage : Option String
deriving Repr, DecidableEq

/-- RiotApiClient.handleApiError from the source, transcribed statement by
statement: start from the generic `API Error N` text, prefer a truthy
server-supplied body message, then let the `switch` overwrite the message
with the status-specific canned text for the seven known statuses (the
`switch` has no guard, so for those statuses the canned text always wins). -/
def handleApiError (status : Nat) (bodyMessage : Option String) : String :=
  let message := "API Error " ++ toString status
  let message :=
    match bodyMessage with
    | some m => if m.isEmpty then message else m
    | none => message
  match status with
  | 400 => "Bad Request - Invalid parameters"
  | 401 => "Unauthorized - Invalid API key"
  | 403 => "Forbidden - API key expired or invalid"
  | 404 => "Not Found - Player not found"
  | 429 => "Rate Limited - Too many requests"
  | 500 => "Internal Server Error - Riot API issue"
  | 503 => "Service Unavailable - Riot API maintenance"
  | _ => message

/-- fetch Response.ok: status in the 2xx range. -/
def responseOk (status : Nat) : Bool :=
  decide (200 ≤ status) && decide (status < 300)

/-- RiotApiClient.executeRequest from the source, as a function of the
credential, the transport response metadata and the (already parsed) success
body: throw `API key not set` before any network call when the credential is
falsy, map a non-ok response through `handleApiError`, otherwise return the
JSON body. -/
def executeRequest (apiKey : Option String) (resp : ErrorResponse) (body : α) :
    Except String α :=
  if !hasApiKey apiKey then .error "API key not set"
  else if !responseOk resp.status then
    .error (handleApiError resp.status resp.bodyMessage)
  else .ok body

/-! ## Lookup orchestrator (source: RiotApiClient.getPlayerRankedInfo /
isPlayerInGame) -/

/-- Account endpoint response: the fields getPlayerRankedInfo reads. -/
structure AccountDto where
  puuid : String
deriving Repr, DecidableEq

/-- Summoner endpoint response: the fields getPlayerRankedInfo reads. -/
structure SummonerDto where
  id : String
  name : String
  summonerLevel : Nat
deriving Repr, DecidableEq

/-- One entry of the league endpoint response. -/
structure LeagueEntry where
  queueType : String
  tier : String
  rank : String
  leaguePoints : Int
  wins : Int
  losses : Int
  veteran : Bool
  inactive : Bool
  freshBlood : Bool
  hotStreak : Bool
deriving Repr, DecidableEq

/-- The record assembled by getPlayerRankedInfo.  `lastUpdated` abstracts
`new Date().toISOString()` as the wall-clock instant of assembly. -/
structure RankedInfo where
  summonerId : String
  summonerName : String
  summonerLevel : Nat
  tier : String
  rank : String
  leaguePoints : Int
  wins : Int
  losses : Int
  veteran : Bool
  inactive : Bool
  freshBlood : Bool
  hotStreak : Bool
  lastUpdated : Nat
deriving Repr, DecidableEq

/-- RiotApiClient.getPlayerRankedInfo from the source, parameterized by the
outcomes of the three scheduled transport calls (account, summoner, league)
and the assembly instant.  Any transport failure propagates unchanged (the
`catch` only logs and rethrows); a missing solo-queue entry throws the
`No ranked solo queue data found` error. -/
def getPlayerRankedInfo (riotId : String)
    (accountResult : Except String AccountDto)
    (summonerResult : Except String SummonerDto)
    (leagueResult : Except String (List LeagueEntry))
    (now : Nat) : Except String RankedInfo := do
  let _parsed := parseRiotId riotId
  let _account ← accountResult
  let summonerData ← summonerResult
  let leagueEntries ← leagueResult
  match leagueEntries.find? (fun entry => entry.queueType == "RANKED_SOLO_5x5") with
  | none => .error "No ranked solo queue data found"
  | some soloQueue =>
    .ok { summonerId := summonerData.id
          summonerName := summonerData.name
          summonerLevel := summonerData.summonerLevel
          tier := soloQueue.tier
          rank := soloQueue.rank
          leaguePoints := soloQueue.leaguePoints
          wins := soloQueue.wins
          losses := soloQueue.losses
          veteran := soloQueue.veteran
          inactive := soloQueue.inactive
          freshBlood := soloQueue.freshBlood
          hotStreak := soloQueue.hotStreak
          lastUpdated := now }

/-- JavaScript `String.prototype.includes` on character lists. -/
def containsSeq (sub : List Char) : List Char → Bool
  | [] => sub.isEmpty
  | c :: cs => sub.isPrefixOf (c :: cs) || containsSeq sub cs

/-- JavaScript `s.includes(sub)`. -/
def stringIncludes (s sub : String) : Bool :=
  containsSeq sub.data s.data

/-- RiotApiClient.isPlayerInGame from the source: resolve the summoner id
(from the player record cache, else through getPlayerRankedInfo), query the
spectator endpoint, and return whether the game data is non-null.  The
`catch` covers both calls: an error whose message contains the substring
`404` yields `false` (player not in game), every other error is rethrown.
The spectator success value is `none` for a JSON `null` body. -/
def isPlayerInGame (cachedSummonerId : Option String)
    (rankedInfoResult : Except String RankedInfo)
    (spectatorResult : Except String (Option Unit)) : Except String Bool :=
  let summonerIdResult : Except String String :=
    match cachedSummonerId with
    | some sid => .ok sid
    | none => rankedInfoResult.map (fun info => info.summonerId)
  match summonerIdResult with
  | .error e => if stringIncludes e "404" then .ok false else .error e
  | .ok _ =>
    match spectatorResult with
    | .ok gameData => .ok gameData.isSome
    | .error e => if stringIncludes e "404" then .ok false else .error e

/-! ## Synthetic data provider (source: MockRiotApiClient)

Randomness is made explicit: each call consumes one `MockRand` bundle whose
fields stand for the successive `Math.random()` draws of the source, so the
theorems quantify over every possible sequence of draws.  `RandomUtils`
helpers are embedded with a raw draw `r : Nat`; `Math.floor(Math.random() *
n)` is `r % n`, which ranges over the same values. -/

/-- RandomUtils.randomInt from the source: uniform integer in [lo, hi]
(inclusive), driven by the raw draw `r`. -/
def randomInt (lo hi : Int) (r : Nat) : Int :=
  lo + Int.ofNat (r % (hi - lo + 1).toNat)

/-- RandomUtils.randomChoice from the source, on string arrays. -/
def randomChoice (l : List String) (r : Nat) : String :=
  l.getD (r % l.length) ""

/-- Tier pool used by the mock for unseen players. -/
def mockTiers : List String := ["IRON", "BRONZE", "SILVER", "GOLD", "PLATINUM"]

/-- Division pool used by the mock for unseen players. -/
def mockRanks : List String := ["IV", "III", "II", "I"]

/-- The mutable per-name record stored in `this.mockData`. -/
structure MockStats where
  tier : String
  rank : String
  lp : Int
  wins : Int
  losses : Int
deriving Repr, DecidableEq

/-- The random draws one MockRiotApiClient.getPlayerRankedInfo call makes:
the five seeding draws (used only for an unseen name), the progression coin
(`Math.random() < 0.3`) with its three perturbation draws, and the per-call
presentation draws. -/
structure MockRand where
  rTier : Nat
  rRank : Nat
  rLp : Nat
  rWins : Nat
  rLosses : Nat
  perturb : Bool
  rdWins : Nat
  rdLosses : Nat
  rdLp : Nat
  rLevel : Nat
  bVeteran : Bool
  bInactive : Bool
  bFreshBlood : Bool
  bHotStreak : Bool
deriving Repr, DecidableEq

/-- Seeding block of the mock: random data generated for a new player. -/
def seedStats (rnd : MockRand) : MockStats :=
  { tier := randomChoice mockTiers rnd.rTier
    rank := randomChoice mockRanks rnd.rRank
    lp := randomInt 0 100 rnd.rLp
    wins := randomInt 5 50 rnd.rWins
    losses := randomInt 5 50 rnd.rLosses }

/-- Progression block of the mock: with probability 0.3 add bounded win/loss
increments and a point drift clamped to [0, 100], mutating the stored
record. -/
def perturbStats (rnd : MockRand) (m : MockStats) : MockStats :=
  if rnd.perturb then
    let wins := m.wins + randomInt 0 2 rnd.rdWins
    let losses := m.losses + randomInt 0 1 rnd.rdLosses
    let lp := m.lp + randomInt (-10) 15 rnd.rdLp
    { m with wins := wins, losses := losses, lp := max 0 (min 100 lp) }
  else m

/-- The `this.mockData` map, modelled as an association list: `set` prepends
and `get` returns the first (most recent) binding, which is extensionally the
JS `Map` behaviour. -/
def mockLookupKey : List (String × MockStats) → String → Option MockStats
  | [], _ => none
  | (k, v) :: rest, key => if k = key then some v else mockLookupKey rest key

/-- One MockRiotApiClient.getPlayerRankedInfo call for `gameName`: fetch or
seed the stored stats, apply the optional perturbation (which mutates the
stored object in place in the source, hence the map update), and return the
stats that the response record is built from. -/
def mockStep (st : List (String × MockStats)) (gameName : String) (rnd : MockRand) :
    MockStats × List (String × MockStats) :=
  let key := gameName.toLower
  let base :=
    match mockLookupKey st key with
    | some m => m
    | none => seedStats rnd
  let m := perturbStats rnd base
  (m, (key, m) :: st)

/-- A sequence of mock lookups of the same name, returning the stats each
call reports (the response fields tier/rank/leaguePoints/wins/losses are read
off the stored record after the perturbation). -/
def mockRun (gameName : String) (st : List (String × MockStats)) :
    List MockRand → List MockStats
  | [] => []
  | rnd :: rest =>
    let mr := mockStep st gameName rnd
    mr.1 :: mockRun gameName mr.2 rest

/-! ## Client selector (source: ApiManager) -/

/-- MockRiotApiClient.getApiKey from the source. -/
def mockGetApiKey : String := "mock_api_key"

/-- MockRiotApiClient.hasApiKey from the source. -/
def mockHasApiKey : Bool := true

/-- The state of an ApiManager: the real client's stored credential and the
`useMockApi` flag. -/
structure ApiManagerState where
  realApiKey : Option String
  useMockApi : Bool
deriving Repr, DecidableEq

/-- ApiManager constructor: the real client loads the persisted credential
(`none` when nothing was ever stored) and the manager starts in mock mode
exactly when that credential is falsy. -/
def mkApiManager (storedKey : Option String) : ApiManagerState :=
  { realApiKey := storedKey, useMockApi := !hasApiKey storedKey }

/-- ApiManager.setApiKey from the source: store the key on the real client
and switch to the real client unconditionally. -/
def managerSetApiKey (m : ApiManagerState) (key : String) : ApiManagerState :=
  { m with realApiKey := some key, useMockApi := false }

/-- ApiManager.useMock from the source. -/
def managerUseMock (m : ApiManagerState) : ApiManagerState :=
  { m with useMockApi := true }

/-- ApiManager.useReal from the source: switch to the real client only when
it has a credential, otherwise throw the configuration error. -/
def managerUseReal (m : ApiManagerState) : Except String ApiManagerState :=
  if hasApiKey m.realApiKey then .ok { m with useMockApi := false }
  else .error "No API key set for real API client"

/-- ApiManager.hasApiKey from the source: delegate to the current client. -/
def managerHasApiKey (m : ApiManagerState) : Bool :=
  if m.useMockApi then mockHasApiKey else hasApiKey m.realApiKey

/-- ApiManager.getApiKey from the source: delegate to the current client
(the real client returns its stored `apiKey` field, possibly null). -/
def managerGetApiKey (m : ApiManagerState) : Option String :=
  if m.useMockApi then some mockGetApiKey else m.realApiKey

/-! ## Spec-side definition used by the C6 refinement -/

/-- Modelled from the spec, as amended by the C6 counterexample: for the
seven statuses with a canned text the canned text always wins; for any other
status a truthy server-supplied body message is used, with `API Error N` as
the fallback.  Compared against `handleApiError` below. -/
def specErrorMessage (status : Nat) (bodyMessage : Option String) : String :=
  if status = 400 then "Bad Request - Invalid parameters"
  else if status = 401 then "Unauthorized - Invalid API key"
  else if status = 403 then "Forbidden - API key expired or invalid"
  else if status = 404 then "Not Found - Player not found"
  else if status = 429 then "Rate Limited - Too many requests"
  else if status = 500 then "Internal Server Error - Riot API issue"
  else if status = 503 then "Service Unavailable - Riot API maintenance"
  else
    match bodyMessage with
    | some m => if m.isEmpty then "API Error " ++ toString status else m
    | none => "API Error " ++ toString status

/-- The validity predicate of C9: tier and division come from the fixed
pools and the league points sit in [0, 100]. -/
def validStats (m : MockStats) : Prop :=
  m.tier ∈ mockTiers ∧ m.rank ∈ mockRanks ∧ 0 ≤ m.lp ∧ m.lp ≤ 100

/-! ## Lemmas -/

/-! ### Scheduler timing lemmas

The per-second guarantee rests on the unconditional 50 ms inter-request
sleep: two consecutive dispatch instants are at least 50 ms apart, so a
1000 ms window can hold at most 20 of them. -/

lemma processStep_time_lb (s : SchedState) (r : QueuedRequest) :
    s.clock ≤ (processStep s r).2.time := by
  unfold processStep
  dsimp only
  split_ifs <;> simp <;> omega

lemma processStep_clock_lb (s : SchedState) (r : QueuedRequest) :
    (processStep s r).2.time + 50 ≤ (processStep s r).1.clock := by
  unfold processStep
  dsimp only
  split_ifs <;> simp

lemma processQueue_time_lb (rs : List QueuedRequest) (s : SchedState) :
    ∀ d ∈ (processQueue s rs).2, s.clock ≤ d.time := by
  induction rs generalizing s with
  | nil => simp [processQueue]
  | cons r rs ih =>
    intro d hd
    simp only [processQueue, List.mem_cons] at hd
    rcases hd with h | h
    · subst h; exact processStep_time_lb s r
    · have h1 := ih (processStep s r).1 d h
      have h2 := processStep_clock_lb s r
      have h3 := processStep_time_lb s r
      omega

lemma dispatchTimes_chain (rs : List QueuedRequest) (s : SchedState) :
    List.Chain' (fun x y => x + 50 ≤ y) (dispatchTimes s rs) := by
  induction rs generalizing s with
  | nil => simp [dispatchTimes, processQueue]
  | cons r rs ih =>
    have hrest := ih (processStep s r).1
    simp only [dispatchTimes, processQueue, List.map_cons] at *
    refine List.chain'_cons'.mpr ⟨?_, hrest⟩
    intro y hy
    rw [List.head?_map] at hy
    cases hhead : (processQueue (processStep s r).1 rs).2.head? with
    | none => rw [hhead] at hy; simp at hy
    | some d =>
      rw [hhead] at hy
      simp only [Option.map_some', Option.mem_def, Option.some.injEq] at hy
      subst hy
      have hd : d ∈ (processQueue (processStep s r).1 rs).2 :=
        List.mem_of_mem_head? (by rw [hhead]; rfl)
      have h1 := processQueue_time_lb rs (processStep s r).1 d hd
      have h2 := processStep_clock_lb s r
      omega

lemma chain_head_le (g : Nat) :
    ∀ (h : Nat) (l : List Nat), List.Chain' (fun x y => x + g ≤ y) (h :: l) →
      ∀ t ∈ l, h + g ≤ t := by
  intro h l
  induction l generalizing h with
  | nil => intro _ t ht; simp at ht
  | cons h2 l2 ih =>
    intro hc t ht
    rw [List.chain'_cons] at hc
    rcases List.mem_cons.mp ht with rfl | ht2
    · exact hc.1
    · have := ih h2 hc.2 t ht2
      omega

lemma countP_lt_le (g : Nat) :
    ∀ (ts : List Nat) (b e k : Nat),
      List.Chain' (fun x y => x + g ≤ y) ts →
      (∀ t ∈ ts, b ≤ t) → e ≤ b + g * k →
      ts.countP (fun t => decide (t < e)) ≤ k := by
  intro ts
  induction ts with
  | nil => intro b e k _ _ _; simp
  | cons h rest ih =>
    intro b e k hc hb he
    have hrest : List.Chain' (fun x y => x + g ≤ y) rest := hc.tail
    have hmem : ∀ t ∈ rest, h + g ≤ t := chain_head_le g h rest hc
    have hbh : b ≤ h := hb h (by simp)
    by_cases hlt : h < e
    · rcases k with _ | k'
      · omega
      · have htail : rest.countP (fun t => decide (t < e)) ≤ k' := by
          apply ih (h + g) e k' hrest hmem
          have hk : b + g * (k' + 1) ≤ h + g * (k' + 1) := by omega
          have : h + g * (k' + 1) = h + g + g * k' := by ring
          omega
        rw [List.countP_cons_of_pos (fun t => decide (t < e)) rest (decide_eq_true hlt)]
        omega
    · have htail : rest.countP (fun t => decide (t < e)) ≤ 0 := by
        apply ih (h + g) e 0 hrest hmem
        omega
      rw [List.countP_cons_of_neg (fun t => decide (t < e)) rest (by simp [hlt])]
      omega

lemma spaced_window_le (g k w : Nat) (hwk : w ≤ g * k) :
    ∀ (ts : List Nat), List.Chain' (fun x y => x + g ≤ y) ts →
      ∀ a, windowCount a w ts ≤ k := by
  intro ts
  induction ts with
  | nil => intro _ a; simp [windowCount]
  | cons h rest ih =>
    intro hc a
    have hrest : List.Chain' (fun x y => x + g ≤ y) rest := hc.tail
    have hmem : ∀ t ∈ rest, h + g ≤ t := chain_head_le g h rest hc
    by_cases hah : a ≤ h
    · have hall : ∀ t ∈ h :: rest, h ≤ t := by
        intro t ht
        rcases List.mem_cons.mp ht with rfl | ht2
        · exact Nat.le_refl _
        · have := hmem t ht2; omega
      have hcount : (h :: rest).countP (fun t => decide (t < a + w)) ≤ k := by
        apply countP_lt_le g (h :: rest) h (a + w) k hc hall
        omega
      have hmono : windowCount a w (h :: rest) ≤
          (h :: rest).countP (fun t => decide (t < a + w)) := by
        apply List.countP_mono_left
        intro x _ hx
        simp only [decide_eq_true_eq] at hx ⊢
        exact hx.2
      omega
    · have hnot : ¬(a ≤ h ∧ h < a + w) := fun hh => hah hh.1
      rw [windowCount, List.countP_cons_of_neg (fun t => decide (a ≤ t ∧ t < a + w)) rest (by simp [hnot])]
      exact ih hrest a

/-! ### Scheduler counter invariants

After any loop iteration the per-second counter is at most `perSecond` and
the per-minute counter at most `perMinute`, whatever the incoming state: each
admission check either finds its counter strictly below the limit or resets
it before the dispatch increments it. -/

lemma processStep_second_le (s : SchedState) (r : QueuedRequest) :
    (processStep s r).1.requestsThisSecond ≤ personalRateLimit.perSecond := by
  unfold processStep
  dsimp only
  split_ifs <;> simp_all [personalRateLimit] <;> omega

lemma processStep_minute_le (s : SchedState) (r : QueuedRequest) :
    (processStep s r).1.requestsThisMinute ≤ personalRateLimit.perMinute := by
  unfold processStep
  dsimp only
  split_ifs <;> simp_all [personalRateLimit] <;> omega

lemma processStep_record (s : SchedState) (r : QueuedRequest) :
    (processStep s r).2.id = r.id ∧ (processStep s r).2.succeeded = r.ok :=
  ⟨rfl, rfl⟩

lemma processQueue_outcome_list (rs : List QueuedRequest) (s : SchedState) :
    (processQueue s rs).2.map (fun d => (d.id, d.succeeded)) =
      rs.map (fun r => (r.id, r.ok)) := by
  induction rs generalizing s with
  | nil => rfl
  | cons r rs ih =>
    simp only [processQueue, List.map_cons, ih (processStep s r).1,
      (processStep_record s r).1, (processStep_record s r).2]

/-! ## Split characterization lemmas (for C4) -/

lemma splitOnChar_ne_nil (sep : Char) (l : List Char) : splitOnChar sep l ≠ [] := by
  induction l with
  | nil => simp [splitOnChar]
  | cons c cs ih =>
    unfold splitOnChar
    dsimp only
    split_ifs
    · simp
    · cases h : splitOnChar sep cs <;> simp

lemma splitOnChar_eq_single (sep : Char) :
    ∀ (l a : List Char), splitOnChar sep l = [a] ↔ l = a ∧ sep ∉ a := by
  intro l
  induction l with
  | nil =>
    intro a
    constructor
    · intro h
      have h1 : ([] : List Char) = a := ((List.cons.injEq _ _ _ _).mp h).1
      refine ⟨h1, fun hm => ?_⟩
      rw [← h1] at hm
      simp at hm
    · rintro ⟨rfl, -⟩
      rfl
  | cons c cs ih =>
    intro a
    constructor
    · intro h
      unfold splitOnChar at h
      dsimp only at h
      by_cases hc : c = sep
      · rw [if_pos hc] at h
        have hnil : splitOnChar sep cs = [] := ((List.cons.injEq _ _ _ _).mp h).2
        exact absurd hnil (splitOnChar_ne_nil sep cs)
      · rw [if_neg hc] at h
        cases hr : splitOnChar sep cs with
        | nil => exact absurd hr (splitOnChar_ne_nil sep cs)
        | cons g gs =>
          rw [hr] at h
          have h1 : c :: g = a := ((List.cons.injEq _ _ _ _).mp h).1
          have h2 : gs = [] := ((List.cons.injEq _ _ _ _).mp h).2
          subst h2
          have hg := (ih g).mp hr
          refine ⟨by rw [← h1, hg.1], ?_⟩
          rw [← h1]
          intro hmem
          rcases List.mem_cons.mp hmem with hsep | hsep
          · exact hc hsep.symm
          · exact hg.2 hsep
    · rintro ⟨rfl, hmem⟩
      have hc : ¬(c = sep) := fun h => hmem (by rw [h]; exact List.mem_cons_self _ _)
      unfold splitOnChar
      dsimp only
      rw [if_neg hc]
      have hcs : splitOnChar sep cs = [cs] :=
        (ih cs).mpr ⟨rfl, fun h => hmem (List.mem_cons_of_mem c h)⟩
      rw [hcs]

lemma splitOnChar_eq_pair (sep : Char) :
    ∀ (l a b : List Char), splitOnChar sep l = [a, b] ↔
      l = a ++ sep :: b ∧ sep ∉ a ∧ sep ∉ b := by
  intro l
  induction l with
  | nil =>
    intro a b
    constructor
    · intro h; simp [splitOnChar] at h
    · rintro ⟨h, -, -⟩
      exact absurd h (by simp)
  | cons c cs ih =>
    intro a b
    constructor
    · intro h
      unfold splitOnChar at h
      dsimp only at h
      by_cases hc : c = sep
      · rw [if_pos hc] at h
        have h1 : ([] : List Char) = a := (List.cons.injEq _ _ _ _).mp h |>.1
        have h2 : splitOnChar sep cs = [b] := (List.cons.injEq _ _ _ _).mp h |>.2
        have hb := (splitOnChar_eq_single sep cs b).mp h2
        subst hc
        refine ⟨?_, by rw [← h1]; simp, hb.2⟩
        rw [← h1, hb.1]
        rfl
      · rw [if_neg hc] at h
        cases hr : splitOnChar sep cs with
        | nil => exact absurd hr (splitOnChar_ne_nil sep cs)
        | cons g gs =>
          rw [hr] at h
          have h1 : c :: g = a := (List.cons.injEq _ _ _ _).mp h |>.1
          have h2 : gs = [b] := (List.cons.injEq _ _ _ _).mp h |>.2
          subst h2
          have hp := (ih g b).mp hr
          refine ⟨?_, ?_, hp.2.2⟩
          · rw [← h1, hp.1]; rfl
          · rw [← h1]
            intro hmem
            rcases List.mem_cons.mp hmem with hsep | hsep
            · exact hc hsep.symm
            · exact hp.2.1 hsep
    · rintro ⟨hl, ha, hb⟩
      cases a with
      | nil =>
        have hcsep : c = sep := by
          have := hl
          simp at this
          exact this.1
        have hcs : cs = b := by
          have := hl
          simp at this
          exact this.2
        subst hcs
        unfold splitOnChar
        dsimp only
        rw [if_pos hcsep]
        rw [(splitOnChar_eq_single sep cs cs).mpr ⟨rfl, hb⟩]
      | cons x a2 =>
        have hcx : c = x := by
          have := hl
          simp at this
          exact this.1
        have hcs : cs = a2 ++ sep :: b := by
          have := hl
          simp at this
          exact this.2
        have hxsep : ¬(c = sep) := by
          rw [hcx]
          intro h
          exact ha (by rw [← h]; exact List.mem_cons_self _ _)
        unfold splitOnChar
        dsimp only
        rw [if_neg hxsep]
        have hrest : splitOnChar sep cs = [a2, b] :=
          (ih a2 b).mpr ⟨hcs, fun h => ha (List.mem_cons_of_mem x h), hb⟩
        rw [hrest, hcx]

lemma validateRiotId_iff_decomp (s : String) :
    validateRiotId s = true ↔
      ∃ a b : List Char, s.data = a ++ '#' :: b ∧ a ≠ [] ∧ b ≠ [] ∧
        '#' ∉ a ∧ '#' ∉ b := by
  unfold validateRiotId
  constructor
  · intro h
    cases hsplit : splitOnChar '#' s.data with
    | nil => rw [hsplit] at h; simp at h
    | cons g gs =>
      cases gs with
      | nil => rw [hsplit] at h; simp at h
      | cons g2 gs2 =>
        cases gs2 with
        | nil =>
          rw [hsplit] at h
          simp only [Bool.and_eq_true, Bool.not_eq_true'] at h
          have hp := (splitOnChar_eq_pair '#' s.data g g2).mp hsplit
          refine ⟨g, g2, hp.1, ?_, ?_, hp.2.1, hp.2.2⟩
          · intro hg; rw [hg] at h; simp [List.isEmpty] at h
          · intro hg; rw [hg] at h; simp [List.isEmpty] at h
        | cons g3 gs3 => rw [hsplit] at h; simp at h
  · rintro ⟨a, b, hdecomp, ha, hb, hna, hnb⟩
    rw [(splitOnChar_eq_pair '#' s.data a b).mpr ⟨hdecomp, hna, hnb⟩]
    cases a with
    | nil => exact absurd rfl ha
    | cons x xs =>
      cases b with
      | nil => exact absurd rfl hb
      | cons y ys => rfl

lemma find?_eq_some_of_unique {α : Type} (p : α → Bool) :
    ∀ (l : List α) (e : α), e ∈ l → p e = true →
      (∀ x ∈ l, p x = true → x = e) → l.find? p = some e := by
  intro l
  induction l with
  | nil => intro e he _ _; simp at he
  | cons h rest ih =>
    intro e he hp huniq
    by_cases hph : p h = true
    · have hhe : h = e := huniq h (List.mem_cons_self _ _) hph
      rw [List.find?_cons_of_pos _ hph, hhe]
    · rw [List.find?_cons_of_neg _ (by simp [hph])]
      rcases List.mem_cons.mp he with rfl | hmem
      · exact absurd hp hph
      · exact ih e hmem hp (fun x hx hpx => huniq x (List.mem_cons_of_mem h hx) hpx)

lemma randomInt_lb (lo hi : Int) (r : Nat) : lo ≤ randomInt lo hi r := by
  unfold randomInt
  have : (0 : Int) ≤ Int.ofNat (r % (hi - lo + 1).toNat) := Int.ofNat_nonneg _
  omega

lemma randomInt_ub (lo hi : Int) (h : lo ≤ hi) (r : Nat) : randomInt lo hi r ≤ hi := by
  unfold randomInt
  have hpos : 0 < (hi - lo + 1).toNat := by omega
  have hmod : r % (hi - lo + 1).toNat < (hi - lo + 1).toNat := Nat.mod_lt _ hpos
  have hmod2 : Int.ofNat (r % (hi - lo + 1).toNat) <
      Int.ofNat ((hi - lo + 1).toNat) := Int.ofNat_lt.mpr hmod
  have heq : Int.ofNat ((hi - lo + 1).toNat) = hi - lo + 1 := by
    rw [Int.ofNat_eq_natCast, Int.toNat_of_nonneg (by omega)]
  omega

lemma randomChoice_mem (l : List String) (hl : l ≠ []) (r : Nat) :
    randomChoice l r ∈ l := by
  unfold randomChoice
  have hlen : 0 < l.length := List.length_pos.mpr hl
  have hlt : r % l.length < l.length := Nat.mod_lt _ hlen
  rw [List.getD_eq_getElem?_getD, List.getElem?_eq_getElem hlt]
  exact List.getElem_mem hlt

lemma seedStats_valid (rnd : MockRand) : validStats (seedStats rnd) := by
  refine ⟨randomChoice_mem _ (by decide) _, randomChoice_mem _ (by decide) _, ?_, ?_⟩
  · exact randomInt_lb 0 100 rnd.rLp
  · exact randomInt_ub 0 100 (by norm_num) rnd.rLp

lemma perturbStats_valid (rnd : MockRand) (m : MockStats) (hm : validStats m) :
    validStats (perturbStats rnd m) := by
  unfold perturbStats
  split_ifs
  · exact ⟨hm.1, hm.2.1, le_max_left 0 _, max_le (by norm_num) (min_le_left _ _)⟩
  · exact hm

lemma perturbStats_mono (rnd : MockRand) (m : MockStats) :
    m.wins ≤ (perturbStats rnd m).wins ∧ m.losses ≤ (perturbStats rnd m).losses := by
  unfold perturbStats
  split_ifs
  · exact ⟨le_add_of_nonneg_right (randomInt_lb 0 2 rnd.rdWins),
      le_add_of_nonneg_right (randomInt_lb 0 1 rnd.rdLosses)⟩
  · exact ⟨le_refl _, le_refl _⟩

lemma mockLookupKey_valid (st : List (String × MockStats))
    (hst : ∀ p ∈ st, validStats p.2) (key : String) (m : MockStats)
    (h : mockLookupKey st key = some m) : validStats m := by
  induction st with
  | nil => simp [mockLookupKey] at h
  | cons p rest ih =>
    unfold mockLookupKey at h
    split_ifs at h with hk
    · cases h
      exact hst p (List.mem_cons_self _ _)
    · exact ih (fun q hq => hst q (List.mem_cons_of_mem p hq)) h

lemma mockStep_valid (st : List (String × MockStats))
    (hst : ∀ p ∈ st, validStats p.2) (gameName : String) (rnd : MockRand) :
    validStats (mockStep st gameName rnd).1 ∧
    (∀ p ∈ (mockStep st gameName rnd).2, validStats p.2) := by
  unfold mockStep
  dsimp only
  have hbase : validStats
      (match mockLookupKey st gameName.toLower with
       | some m => m
       | none => seedStats rnd) := by
    cases h : mockLookupKey st gameName.toLower with
    | some m => exact mockLookupKey_valid st hst _ m h
    | none => exact seedStats_valid rnd
  refine ⟨perturbStats_valid rnd _ hbase, ?_⟩
  intro p hp
  rcases List.mem_cons.mp hp with rfl | hmem
  · exact perturbStats_valid rnd _ hbase
  · exact hst p hmem

lemma mockRun_valid (gameName : String) :
    ∀ (rnds : List MockRand) (st : List (String × MockStats)),
      (∀ p ∈ st, validStats p.2) → ∀ m ∈ mockRun gameName st rnds, validStats m := by
  intro rnds
  induction rnds with
  | nil => intro st _ m hm; simp [mockRun] at hm
  | cons rnd rest ih =>
    intro st hst m hm
    unfold mockRun at hm
    rcases List.mem_cons.mp hm with rfl | hmem
    · exact (mockStep_valid st hst gameName rnd).1
    · exact ih _ (mockStep_valid st hst gameName rnd).2 m hmem

lemma mockRun_chain (gameName : String) :
    ∀ (rnds : List MockRand) (st : List (String × MockStats)),
      List.Chain' (fun x y => x.wins ≤ y.wins ∧ x.losses ≤ y.losses)
        (mockRun gameName st rnds) := by
  intro rnds
  induction rnds with
  | nil => intro st; simp [mockRun]
  | cons rnd rest ih =>
    intro st
    unfold mockRun
    dsimp only
    refine List.chain'_cons'.mpr ⟨?_, ih _⟩
    intro y hy
    cases rest with
    | nil => simp [mockRun] at hy
    | cons rnd2 rest2 =>
      unfold mockRun at hy
      simp only [List.head?_cons, Option.mem_def, Option.some.injEq] at hy
      subst hy
      unfold mockStep
      dsimp only
      rw [show mockLookupKey
            ((gameName.toLower, perturbStats rnd
              (match mockLookupKey st gameName.toLower with
               | some m => m
               | none => seedStats rnd)) :: st) gameName.toLower =
          some (perturbStats rnd
            (match mockLookupKey st gameName.toLower with
             | some m => m
             | none => seedStats rnd)) from by simp [mockLookupKey]]
      exact perturbStats_mono rnd2 _

/-! ## Claim theorems -/

/-- C1 (amended): over every drain run of the scheduler, at most
`perSecondLimit` (20) dispatches fall inside any rolling 1-second window
(this is forced by the unconditional 50 ms inter-request sleep); the
per-minute budget, however, is only a fixed-window bound: after every loop
iteration the counters satisfy `requestsThisSecond ≤ 20` and
`requestsThisMinute ≤ 100`, but the number of dispatches inside an arbitrary
rolling 60-second window is not bounded by `perMinuteLimit` (100) — see the
counterexample theorem. -/
theorem scheduler_rate_limit_amended (s0 : SchedState) (rs : List QueuedRequest)
    (a : Nat) (s : SchedState) (r : QueuedRequest) :
    windowCount a 1000 (dispatchTimes s0 rs) ≤ personalRateLimit.perSecond ∧
    (processStep s r).1.requestsThisSecond ≤ personalRateLimit.perSecond ∧
    (processStep s r).1.requestsThisMinute ≤ personalRateLimit.perMinute := by
  refine ⟨?_, processStep_second_le s r, processStep_minute_le s r⟩
  have h := spaced_window_le 50 20 1000 (by norm_num) (dispatchTimes s0 rs)
    (dispatchTimes_chain rs s0) a
  simpa [personalRateLimit] using h

set_option maxRecDepth 10000 in
/-- C1 (counterexample): the claim that at most `perMinuteLimit` (100)
requests are dispatched within any rolling 60-second window is false.  With a
client constructed at time 0, a first request taking 51 s followed by 101
instantaneous ones, the fixed minute boundary at t = 60000 lets the counter
reset mid-burst: the rolling window [51050, 111050) contains 101 dispatches.
The per-minute limiter is a fixed-window counter, not a rolling one. -/
theorem scheduler_rolling_minute_counterexample :
    personalRateLimit.perMinute <
      windowCount 51050 60000 (dispatchTimes (initState 0)
        ({ id := 0, execMs := 51000, ok := true } ::
          List.replicate 101 { id := 1, execMs := 0, ok := true })) := by
  decide

/-- C2: the scheduler services queued requests strictly in submission order:
the identifiers in the dispatch-record list of a drain run are exactly the
identifiers of the submitted queue, in the same order (FIFO, no priority, no
reordering). -/
theorem scheduler_fifo_order (s : SchedState) (rs : List QueuedRequest) :
    (processQueue s rs).2.map (fun d => d.id) = rs.map (fun r => r.id) := by
  have h := processQueue_outcome_list rs s
  have h1 : ((processQueue s rs).2.map (fun d => (d.id, d.succeeded))).map Prod.fst =
      (rs.map (fun r => (r.id, r.ok))).map Prod.fst := by rw [h]
  simpa [List.map_map, Function.comp] using h1

/-- C7: a transport failure on one queued request rejects only that caller:
every submitted request is dispatched exactly once (so a failure does not
halt the queue and later requests are still serviced), each dispatch record
reports success exactly when that request's own transport call succeeded, and
no request appears twice (no retry). -/
theorem scheduler_failure_isolation (s : SchedState) (rs : List QueuedRequest) :
    (processQueue s rs).2.map (fun d => (d.id, d.succeeded)) =
      rs.map (fun r => (r.id, r.ok)) :=
  processQueue_outcome_list rs s

/-! ## Claim theorems: identity parsing (C4) -/

/-- C4 (counterexample): the claim that parsing fails with InvalidIdentity
when the separator count differs from one is false: `parseRiotId` is total.
On `NoSeparator` (zero separators) it succeeds with the whole string as the
name and an undefined (`none`) tagLine, and on `a#b#c` (two separators) it
succeeds with the third segment silently dropped.  No InvalidIdentity
error exists on the parsing path used by getPlayerRankedInfo. -/
theorem parseRiotId_counterexample :
    parseRiotId "NoSeparator" =
      { gameName := "NoSeparator", tagLine := none } ∧
    parseRiotId "a#b#c" = { gameName := "a", tagLine := some "b" } := by
  constructor <;> decide

/-- C4 (amended): `parseRiotId("Foo#NA1")` yields name `Foo` and tag `NA1`,
and `parseRiotId` never fails — on zero separators the tag is undefined, on
two or more the extra segments are dropped; the `exactly one separator with
nonempty name and tag` requirement lives only in `validateRiotId` (the
regular expression used by the form-validation layer), characterized here by
the decomposition of the string around a unique separator. -/
theorem parseRiotId_amended (s : String) :
    parseRiotId "Foo#NA1" = { gameName := "Foo", tagLine := some "NA1" } ∧
    parseRiotId "NoSeparator" =
      { gameName := "NoSeparator", tagLine := none } ∧
    parseRiotId "a#b#c" = { gameName := "a", tagLine := some "b" } ∧
    (validateRiotId s = true ↔
      ∃ a b : List Char, s.data = a ++ '#' :: b ∧ a ≠ [] ∧ b ≠ [] ∧
        '#' ∉ a ∧ '#' ∉ b) :=
  ⟨by decide, by decide, by decide, validateRiotId_iff_decomp s⟩

/-! ## Claim theorems: client selector (C5, C10) -/

/-- C5 (counterexample): the claim that `setCredential("")` leaves the
selector in synthetic mode is false.  `ApiManager.setApiKey` sets
`useMockApi := false` unconditionally, so after `setApiKey("")` on a freshly
constructed manager with no stored key the manager is in real mode even
though the stored credential is still falsy. -/
theorem setApiKey_empty_counterexample :
    (managerSetApiKey (mkApiManager none) "").useMockApi = false ∧
    hasApiKey (managerSetApiKey (mkApiManager none) "").realApiKey = false := by
  decide

/-- C5 (amended): `setApiKey` switches the selector to real mode
unconditionally — for the empty credential just as for `"abc"` — and
`useReal()` on a manager whose real client has no truthy credential fails
with the configuration error instead of switching. -/
theorem manager_mode_amended (m : ApiManagerState) :
    (managerSetApiKey m "").useMockApi = false ∧
    (managerSetApiKey m "abc").useMockApi = false ∧
    (hasApiKey m.realApiKey = false →
      managerUseReal m = .error "No API key set for real API client") := by
  refine ⟨rfl, rfl, ?_⟩
  intro h
  unfold managerUseReal
  rw [h]
  rfl

/-- Witness for C5: the amended theorem applied to the freshly constructed
manager with no stored credential. -/
theorem manager_mode_amended_witness :
    (managerSetApiKey (mkApiManager none) "").useMockApi = false ∧
    (managerSetApiKey (mkApiManager none) "abc").useMockApi = false ∧
    managerUseReal (mkApiManager none) =
      .error "No API key set for real API client" :=
  ⟨(manager_mode_amended (mkApiManager none)).1,
   (manager_mode_amended (mkApiManager none)).2.1,
   (manager_mode_amended (mkApiManager none)).2.2 (by decide)⟩

/-- C10: in every manager state in synthetic mode, credential introspection
is delegated to the mock client: `hasApiKey()` reports true and
`getApiKey()` returns the constant `mock_api_key`, whatever credential the
real client holds. -/
theorem manager_mock_introspection (m : ApiManagerState) (h : m.useMockApi = true) :
    managerHasApiKey m = true ∧ managerGetApiKey m = some "mock_api_key" := by
  unfold managerHasApiKey managerGetApiKey
  rw [h]
  exact ⟨rfl, rfl⟩

/-- Witness for C10: the freshly constructed manager with no stored
credential starts in synthetic mode and reports the mock credential. -/
theorem manager_mock_introspection_witness :
    managerHasApiKey (mkApiManager none) = true ∧
    managerGetApiKey (mkApiManager none) = some "mock_api_key" :=
  manager_mock_introspection (mkApiManager none) (by decide)

/-! ## Claim theorems: error mapping (C6) and 404 handling (C3) -/

/-- C6 (counterexample): the claim that the error carries the
server-supplied JSON message when the body has one is false for every status
with a canned text: for a 404 response whose body message is
`summoner not found`, the unguarded switch overwrites the server message with
the canned text. -/
theorem handleApiError_counterexample :
    handleApiError 404 (some "summoner not found") = "Not Found - Player not found" ∧
    handleApiError 404 (some "summoner not found") ≠ "summoner not found" := by
  exact ⟨rfl, by decide⟩

/-- C6 (amended): on a non-2xx response the error message is exactly
`specErrorMessage`: the status-specific canned text for the seven mapped
statuses (400, 401, 403, 404, 429, 500, 503) regardless of any
server-supplied body message, and otherwise the truthy server-supplied
message with `API Error N` as fallback; there is no structured semantic
kind, the mapping is message-level only, and `executeRequest` surfaces
exactly this message for every non-ok response. -/
theorem handleApiError_amended (status : Nat) (body : Option String)
    (apiKey : Option String) (resp : ErrorResponse) (x : Nat) :
    handleApiError status body = specErrorMessage status body ∧
    (hasApiKey apiKey = true → responseOk resp.status = false →
      executeRequest apiKey resp x =
        .error (handleApiError resp.status resp.bodyMessage)) := by
  constructor
  · unfold handleApiError specErrorMessage
    cases body <;> simp only <;> split <;> simp_all
  · intro hk hng
    unfold executeRequest
    rw [hk, hng]
    rfl

/-- Witness for C6: the amended theorem applied at an unmapped status with a
server message and at a credentialed 404 response. -/
theorem handleApiError_amended_witness :
    handleApiError 418 (some "teapot") = specErrorMessage 418 (some "teapot") ∧
    executeRequest (some "k") { status := 404, bodyMessage := none } 0 =
      .error (handleApiError 404 none) :=
  ⟨(handleApiError_amended 418 (some "teapot") (some "k")
      { status := 404, bodyMessage := none } 0).1,
   (handleApiError_amended 418 (some "teapot") (some "k")
      { status := 404, bodyMessage := none } 0).2 (by decide) (by decide)⟩

/-- C3 (code-bug evaluation): with the spectator endpoint answering HTTP
404, the transport error message is the canned `Not Found - Player not
found`, which does not contain the substring `404`; `isPlayerInGame`
therefore rethrows the error instead of returning false, contradicting the
claim and the source's own `return false; player not in game` intent (the
substring test was written against the pre-switch `API Error 404` text).
`getPlayerRankedInfo` does propagate the 404 failure unchanged, as the first
half of the claim states. -/
theorem isPlayerInGame_404_bug :
    stringIncludes (handleApiError 404 none) "404" = false ∧
    isPlayerInGame (some "sid") (.error "unused")
        (.error (handleApiError 404 none)) =
      .error "Not Found - Player not found" ∧
    getPlayerRankedInfo "Foo#NA1" (.error (handleApiError 404 none))
        (.error "unused") (.error "unused") 0 =
      .error "Not Found - Player not found" := by
  refine ⟨by decide, ?_, ?_⟩ <;> rfl

/-- C8: given three successful transport responses — account, summoner, and
a ranked-entries list containing exactly one entry whose queue kind is
`RANKED_SOLO_5x5` — `getPlayerRankedInfo` returns the record whose fields
are, field for field, those of that entry and of the summoner record, with
`lastUpdated` equal to the assembly instant; and on an entries list with no
solo-queue entry it fails with the `No ranked solo queue data found`
error. -/
theorem getPlayerRankedInfo_roundtrip (riotId : String) (acct : AccountDto)
    (summ : SummonerDto) (entries : List LeagueEntry) (now : Nat)
    (e : LeagueEntry) (entries2 : List LeagueEntry)
    (he : e ∈ entries) (hsolo : e.queueType = "RANKED_SOLO_5x5")
    (huniq : ∀ x ∈ entries, x.queueType = "RANKED_SOLO_5x5" → x = e)
    (hnone : ∀ x ∈ entries2, x.queueType ≠ "RANKED_SOLO_5x5") :
    getPlayerRankedInfo riotId (.ok acct) (.ok summ) (.ok entries) now =
      .ok { summonerId := summ.id
            summonerName := summ.name
            summonerLevel := summ.summonerLevel
            tier := e.tier
            rank := e.rank
            leaguePoints := e.leaguePoints
            wins := e.wins
            losses := e.losses
            veteran := e.veteran
            inactive := e.inactive
            freshBlood := e.freshBlood
            hotStreak := e.hotStreak
            lastUpdated := now } ∧
    getPlayerRankedInfo riotId (.ok acct) (.ok summ) (.ok entries2) now =
      .error "No ranked solo queue data found" := by
  constructor
  · have hfind : entries.find? (fun entry => entry.queueType == "RANKED_SOLO_5x5") =
        some e := by
      apply find?_eq_some_of_unique _ entries e he
      · simp [hsolo]
      · intro x hx hpx
        exact huniq x hx (by simpa using hpx)
    simp [getPlayerRankedInfo, Bind.bind, Except.bind, hfind]
  · have hfind : entries2.find? (fun entry => entry.queueType == "RANKED_SOLO_5x5") =
        none := by
      rw [List.find?_eq_none]
      intro x hx
      simpa using hnone x hx
    simp [getPlayerRankedInfo, Bind.bind, Except.bind, hfind]

/-- Witness for C8: the round-trip theorem applied to a concrete mocked
triple of responses whose entries list holds exactly one solo-queue entry,
and to the empty entries list for the failure half. -/
theorem getPlayerRankedInfo_roundtrip_witness :
    getPlayerRankedInfo "Foo#NA1" (.ok { puuid := "p1" })
        (.ok { id := "s1", name := "Foo", summonerLevel := 31 })
        (.ok [{ queueType := "RANKED_SOLO_5x5", tier := "GOLD", rank := "II",
                leaguePoints := 42, wins := 10, losses := 7, veteran := false,
                inactive := false, freshBlood := true, hotStreak := false }]) 99 =
      .ok { summonerId := "s1", summonerName := "Foo", summonerLevel := 31,
            tier := "GOLD", rank := "II", leaguePoints := 42, wins := 10,
            losses := 7, veteran := false, inactive := false, freshBlood := true,
            hotStreak := false, lastUpdated := 99 } ∧
    getPlayerRankedInfo "Foo#NA1" (.ok { puuid := "p1" })
        (.ok { id := "s1", name := "Foo", summonerLevel := 31 }) (.ok []) 99 =
      .error "No ranked solo queue data found" :=
  getPlayerRankedInfo_roundtrip "Foo#NA1" { puuid := "p1" }
    { id := "s1", name := "Foo", summonerLevel := 31 }
    [{ queueType := "RANKED_SOLO_5x5", tier := "GOLD", rank := "II",
       leaguePoints := 42, wins := 10, losses := 7, veteran := false,
       inactive := false, freshBlood := true, hotStreak := false }] 99
    { queueType := "RANKED_SOLO_5x5", tier := "GOLD", rank := "II",
      leaguePoints := 42, wins := 10, losses := 7, veteran := false,
      inactive := false, freshBlood := true, hotStreak := false } []
    (by simp) rfl (by intro x hx _; simpa using hx) (by intro x hx; simp at hx)

/-- C9: for every player name and every sequence of random draws, each
record the synthetic provider returns has its tier and division drawn from
the fixed pools with league points in [0, 100], and the reported wins and
losses are non-decreasing from each call to the next (the perturbation step
only ever adds non-negative bounded increments and clamps the points back
into [0, 100]). -/
theorem mock_provider_invariants (gameName : String) (rnds : List MockRand) :
    (∀ m ∈ mockRun gameName [] rnds, validStats m) ∧
    List.Chain' (fun x y => x.wins ≤ y.wins ∧ x.losses ≤ y.losses)
      (mockRun gameName [] rnds) :=
  ⟨mockRun_valid gameName rnds [] (by simp), mockRun_chain gameName rnds []⟩

end LolTracker
